import Mathlib

/-!
Verification development for a small sampling DSL interpreter.

The interpreter transforms a fixed-length vector of logits with three
commands: sort (ascending or descending), slice (range mask) and
threshold (comparison mask).  Source shape: three primitive functions
over the vector, a line splitter, and an interpreter loop that
dispatches on the first whitespace token of each line.

Embedding choices:
* Logit values are modelled as `WithBot ℚ`: bottom plays the role of the
  floating-point negative infinity the code uses as masking sentinel,
  and finite float values are modelled as rationals (every behaviour at
  stake is purely order-theoretic, so this is faithful).
* Ascending `np.sort` is modelled by `List.insertionSort (· ≤ ·)`; on a
  linear order a sorted permutation of a list of values is unique as a
  list of values, so the choice of sorting algorithm is immaterial.
* The program text is embedded as its list of newline-separated lines;
  splitting the raw string on the newline character is the very first
  thing the code does and is a host-language primitive.
* Python exceptions are modelled by the error type `Err`, with one
  constructor per distinct raise site (the `ValueError`s of the three
  primitives and of `int` and `float` conversion, the tuple unpack
  error of the slice argument, the unknown-command error, and the
  `IndexError` of a missing positional argument).
* Literal parsing by `int(...)` and `float(...)` is modelled for the
  ordinary decimal forms (optional sign, digits, fraction, exponent);
  exotic accepted spellings (underscore separators, infinity and nan
  words) are outside the model.
-/

namespace SamplingDSL

/-- Logit value: a rational, or bottom for the negative-infinity masking
sentinel. -/
abbrev Logit := WithBot ℚ

/-- Errors, one constructor per distinct Python raise site. -/
inductive Err where
  | invalidOrder (order : String)
  | invalidSliceRange (n m : Int) (size : Nat)
  | invalidOperator (op : String)
  | unknownCommand (cmd : String)
  | unpackError (arg : String)
  | intParseError (s : String)
  | floatParseError (s : String)
  | indexError
  deriving DecidableEq, Repr

/-- Embeds `sort_logits`: descending for "-" (ascending sort reversed,
as in the source), ascending for "+", error otherwise. -/
def sort_logits (logits : List Logit) (order : String) : Except Err (List Logit) :=
  if order = "-" then .ok (List.insertionSort (· ≤ ·) logits).reverse
  else if order = "+" then .ok (List.insertionSort (· ≤ ·) logits)
  else .error (.invalidOrder order)

/-- Pointwise masking step of `slice_logits`: keep the value at absolute
index i when n is at most i and i is below m, else bottom; the first
argument of the recursion is the index of the head of the remaining
list.  This is the numpy conditional overwrite with the boolean mask
that is true exactly on the half-open index range from n to m. -/
def maskIdx (n m : Int) : Int → List Logit → List Logit
  | _, [] => []
  | i, v :: vs => (if n ≤ i ∧ i < m then v else ⊥) :: maskIdx n m (i + 1) vs

/-- Embeds `slice_logits`: defaults (0 and the length), the validity
check exactly as written in the source, then the range mask. -/
def slice_logits (logits : List Logit) (n? m? : Option Int) : Except Err (List Logit) :=
  let n := n?.getD 0
  let m := m?.getD (logits.length : Int)
  if n < 0 ∨ m > (logits.length : Int) ∨ n ≥ m then
    .error (.invalidSliceRange n m logits.length)
  else
    .ok (maskIdx n m 0 logits)

/-- Embeds `threshold_logits`: overwrite with bottom every position
whose value satisfies the comparator against the threshold. -/
def threshold_logits (logits : List Logit) (op : String) (value : ℚ) : Except Err (List Logit) :=
  if op = "<" then .ok (logits.map fun v => if v < (value : Logit) then ⊥ else v)
  else if op = ">" then .ok (logits.map fun v => if v > (value : Logit) then ⊥ else v)
  else if op = "<=" then .ok (logits.map fun v => if v ≤ (value : Logit) then ⊥ else v)
  else if op = ">=" then .ok (logits.map fun v => if v ≥ (value : Logit) then ⊥ else v)
  else .error (.invalidOperator op)

/-- Python strip of a line: drop whitespace characters from both ends.
Implemented on the character list so that concrete programs evaluate
inside the kernel. -/
def pyStrip (s : String) : String :=
  String.mk (((s.toList.dropWhile Char.isWhitespace).reverse.dropWhile Char.isWhitespace).reverse)

/-- Python whitespace tokenization of one line: split on every
whitespace character and drop the empty pieces. -/
def pySplit (s : String) : List String :=
  ((s.toList.splitOnP Char.isWhitespace).map (fun cs => String.mk cs)).filter (fun t => t ≠ "")

/-- Digit-string value: none when empty or when a non-digit appears,
else the decimal value. -/
def digitsToNat? (cs : List Char) : Option Nat :=
  match cs with
  | [] => none
  | _ =>
    if cs.all Char.isDigit then some (cs.foldl (fun k c => 10 * k + (c.toNat - 48)) 0)
    else none

/-- Optional sign followed by a nonempty digit string, as an integer. -/
def signedDigits? (cs : List Char) : Option Int :=
  match cs with
  | [] => none
  | c :: rest =>
    if c = '-' then (digitsToNat? rest).map fun k => -(k : Int)
    else if c = '+' then (digitsToNat? rest).map fun k => (k : Int)
    else (digitsToNat? cs).map fun k => (k : Int)

/-- Embeds Python integer conversion of a whitespace-free token. -/
def pyInt? (s : String) : Option Int := signedDigits? s.toList

/-- Unsigned decimal mantissa: digits with an optional single decimal
point, at least one digit overall. -/
def pyMantissa? (cs : List Char) : Option ℚ :=
  match cs.splitOn '.' with
  | [ip] =>
    if ip ≠ [] ∧ ip.all Char.isDigit then
      some ((ip.foldl (fun k c => 10 * k + (c.toNat - 48)) 0 : Nat) : ℚ)
    else none
  | [ip, fp] =>
    if (ip ++ fp) ≠ [] ∧ (ip ++ fp).all Char.isDigit then
      some (((ip.foldl (fun k c => 10 * k + (c.toNat - 48)) 0 : Nat) : ℚ) +
        ((fp.foldl (fun k c => 10 * k + (c.toNat - 48)) 0 : Nat) : ℚ) / (10 : ℚ) ^ fp.length)
    else none
  | _ => none

/-- Embeds Python float conversion of a whitespace-free token, for the
ordinary decimal literal forms. -/
def pyFloat? (s : String) : Option ℚ :=
  match s.toList with
  | [] => none
  | c :: rest =>
    let body : List Char := if c = '-' ∨ c = '+' then rest else c :: rest
    let val? : Option ℚ :=
      match (body.map Char.toLower).splitOn 'e' with
      | [mant] => pyMantissa? mant
      | [mant, ex] =>
        match pyMantissa? mant, signedDigits? ex with
        | some q, some e => some (q * (10 : ℚ) ^ e)
        | _, _ => none
      | _ => none
    if c = '-' then val?.map (fun q => -q) else val?

/-- Embeds the per-bound handling of the slice argument: an empty
substring means the default, otherwise integer conversion with its
error. -/
def parseSliceArg (s : String) : Except Err (Option Int) :=
  if s = "" then .ok none
  else
    match pyInt? s with
    | some k => .ok (some k)
    | none => .error (.intParseError s)

/-- Embeds one iteration of the interpreter loop: tokenize the line,
dispatch on the first token, consume the positional arguments exactly
as the source does (extra tokens are never looked at). -/
def interpretCommand (logits : List Logit) (command : String) : Except Err (List Logit) :=
  match pySplit command with
  | [] => .error .indexError
  | cmd :: args =>
    if cmd = "sort" then
      sort_logits logits (match args with | [] => "-" | o :: _ => o)
    else if cmd = "slice" then
      match args with
      | [] => .error .indexError
      | arg :: _ =>
        match (arg.toList.splitOn ':').map (fun cs => String.mk cs) with
        | [a, b] => do
          let n ← parseSliceArg a
          let m ← parseSliceArg b
          slice_logits logits n m
        | _ => .error (.unpackError arg)
    else if cmd = "threshold" then
      match args with
      | op :: vstr :: _ =>
        match pyFloat? vstr with
        | some v => threshold_logits logits op v
        | none => .error (.floatParseError vstr)
      | _ => .error .indexError
    else .error (.unknownCommand cmd)

/-- Embeds `parse_dsl` on the list of newline-separated lines of the
text: trim every line, drop the blank ones. -/
def parse_dsl (dslLines : List String) : List String :=
  (dslLines.map pyStrip).filter (fun c => c ≠ "")

/-- Embeds `interpret_dsl`: fold the interpreter step over the parsed
command lines, threading the vector, stopping at the first error. -/
def interpret_dsl (logits : List Logit) (dslLines : List String) : Except Err (List Logit) :=
  (parse_dsl dslLines).foldlM (fun acc c => interpretCommand acc c) logits

/-- Multiset of the values of a vector that are not the masking
sentinel. -/
def finiteVals (l : List Logit) : Multiset Logit :=
  ((l.filter fun v => v ≠ ⊥) : List Logit)

/-- The range mask keeps the length of the vector. -/
theorem maskIdx_length (n m : Int) : ∀ (i : Int) (l : List Logit), (maskIdx n m i l).length = l.length
  | _, [] => rfl
  | i, _ :: vs => by simp [maskIdx, maskIdx_length n m (i + 1) vs]

/-- Entry of the range mask: the original value when the absolute index
lies in the range, bottom otherwise. -/
theorem maskIdx_get (n m : Int) :
    ∀ (i : Int) (vs : List Logit) (j : ℕ) (hj : j < vs.length)
      (hj2 : j < (maskIdx n m i vs).length),
      (maskIdx n m i vs).get ⟨j, hj2⟩ =
        if n ≤ i + j ∧ i + j < m then vs.get ⟨j, hj⟩ else ⊥
  | i, v :: vs, 0, _, _ => by simp [maskIdx]
  | i, v :: vs, j + 1, hj, hj2 => by
    have ih := maskIdx_get n m (i + 1) vs j (by simpa using hj)
      (by simpa [maskIdx, maskIdx_length] using hj2)
    have harith : i + 1 + (j : Int) = i + ((j : Nat) + 1 : Nat) := by omega
    simp only [maskIdx, List.get_cons_succ] at ih ⊢
    rw [ih, harith]

/-- Range mask from index 0 up to k: keep the first k entries, bottom
afterwards. -/
theorem maskIdx_take (s : List Logit) (k : ℕ) :
    maskIdx 0 (k : Int) 0 s = s.take k ++ List.replicate (s.length - k) ⊥ := by
  apply List.ext_get
  · simp [maskIdx_length, List.length_take]
    omega
  · intro j h1 h2
    have hjs : j < s.length := by simpa [maskIdx_length] using h1
    rw [maskIdx_get 0 (k : Int) 0 s j hjs h1]
    by_cases hk : j < k
    · have hcond : (0 : Int) ≤ 0 + (j : Int) ∧ 0 + (j : Int) < (k : Int) := by
        constructor <;> [positivity; (push_cast; omega)]
      rw [if_pos hcond]
      have hjt : j < (s.take k).length := by simp [List.length_take]; omega
      simp only [List.get_eq_getElem]
      rw [List.getElem_append_left hjt, List.getElem_take]
    · have hcond : ¬ ((0 : Int) ≤ 0 + (j : Int) ∧ 0 + (j : Int) < (k : Int)) := by
        omega
      rw [if_neg hcond]
      have hjt : (s.take k).length ≤ j := by simp [List.length_take]; omega
      simp only [List.get_eq_getElem]
      rw [List.getElem_append_right hjt, List.getElem_replicate]

/-- Descending sort result is sorted for the reversed order. -/
theorem sortDesc_sorted (l : List Logit) :
    List.Sorted (· ≥ ·) (List.insertionSort (· ≤ ·) l).reverse := by
  rw [List.Sorted, List.pairwise_reverse]
  simpa [ge_iff_le] using List.sorted_insertionSort (· ≤ ·) l

/-- Descending sort result is a permutation of the input. -/
theorem sortDesc_perm (l : List Logit) :
    ((List.insertionSort (· ≤ ·) l).reverse).Perm l :=
  (List.reverse_perm _).trans (List.perm_insertionSort _ l)

/-- Permutations have the same finite values. -/
theorem finiteVals_perm {l₁ l₂ : List Logit} (h : l₁.Perm l₂) :
    finiteVals l₁ = finiteVals l₂ :=
  Quot.sound (h.filter _)

/-- Finite values of a cons: keep the head exactly when it is not the
sentinel. -/
theorem finiteVals_cons (v : Logit) (l : List Logit) :
    finiteVals (v :: l) = if v = ⊥ then finiteVals l else v ::ₘ finiteVals l := by
  by_cases hb : v = ⊥ <;> simp [finiteVals, List.filter_cons, hb]

/-- Pointwise masking maps only shrink the finite values. -/
theorem finiteVals_map_le (f : Logit → Logit) (hf : ∀ v, f v = v ∨ f v = ⊥) :
    ∀ l : List Logit, finiteVals (l.map f) ≤ finiteVals l
  | [] => le_refl _
  | v :: l => by
    have ih := finiteVals_map_le f hf l
    rw [List.map_cons, finiteVals_cons, finiteVals_cons]
    rcases hf v with hv | hv
    · rw [hv]
      by_cases hb : v = ⊥
      · rw [if_pos hb, if_pos hb]
        exact ih
      · rw [if_neg hb, if_neg hb]
        exact Multiset.cons_le_cons v ih
    · rw [hv, if_pos rfl]
      by_cases hb : v = ⊥
      · rw [if_pos hb]
        exact ih
      · rw [if_neg hb]
        exact le_trans ih (Multiset.le_cons_self _ v)

/-- The range mask only shrinks the finite values. -/
theorem finiteVals_maskIdx_le (n m : Int) :
    ∀ (i : Int) (l : List Logit), finiteVals (maskIdx n m i l) ≤ finiteVals l
  | _, [] => le_refl _
  | i, v :: l => by
    have ih := finiteVals_maskIdx_le n m (i + 1) l
    show finiteVals ((if n ≤ i ∧ i < m then v else ⊥) :: maskIdx n m (i + 1) l) ≤ _
    rw [finiteVals_cons, finiteVals_cons]
    by_cases hc : n ≤ i ∧ i < m
    · rw [if_pos hc]
      by_cases hb : v = ⊥
      · rw [if_pos hb, if_pos hb]
        exact ih
      · rw [if_neg hb, if_neg hb]
        exact Multiset.cons_le_cons v ih
    · rw [if_neg hc, if_pos rfl]
      by_cases hb : v = ⊥
      · rw [if_pos hb]
        exact ih
      · rw [if_neg hb]
        exact le_trans ih (Multiset.le_cons_self _ v)

/-- Sorting keeps the length. -/
theorem sort_logits_length {l r : List Logit} {o : String}
    (h : sort_logits l o = .ok r) : r.length = l.length := by
  unfold sort_logits at h
  split at h
  · cases h
    rw [List.length_reverse]
    exact (List.perm_insertionSort (· ≤ ·) l).length_eq
  · split at h
    · cases h
      exact (List.perm_insertionSort (· ≤ ·) l).length_eq
    · cases h

/-- Range masking keeps the length. -/
theorem slice_logits_length {l r : List Logit} {n? m? : Option Int}
    (h : slice_logits l n? m? = .ok r) : r.length = l.length := by
  simp only [slice_logits] at h
  split at h
  · cases h
  · cases h
    exact maskIdx_length _ _ _ l

/-- Threshold masking keeps the length. -/
theorem threshold_logits_length {l r : List Logit} {op : String} {p : ℚ}
    (h : threshold_logits l op p = .ok r) : r.length = l.length := by
  unfold threshold_logits at h
  repeat' split at h
  all_goals cases h
  all_goals simp

/-- One interpreter step keeps the length. -/
theorem interpretCommand_length {l r : List Logit} {c : String}
    (h : interpretCommand l c = .ok r) : r.length = l.length := by
  unfold interpretCommand at h
  split at h
  · cases h
  · split at h
    · exact sort_logits_length h
    · split at h
      · split at h
        · cases h
        · split at h
          · rename_i a b heq
            cases hpa : parseSliceArg a with
            | error e => rw [hpa] at h; cases h
            | ok n =>
              rw [hpa] at h
              cases hpb : parseSliceArg b with
              | error e => rw [hpb] at h; cases h
              | ok m =>
                rw [hpb] at h
                have h2 : slice_logits l n m = .ok r := h
                exact slice_logits_length h2
          · cases h
      · split at h
        · split at h
          · split at h
            · exact threshold_logits_length h
            · cases h
          · cases h
        · cases h

/-- Any line with at least one token that fails on every vector makes
the whole interpreter loop fail with some error. -/
theorem foldl_mem_error (line : String)
    (h2 : ∀ v : List Logit, ∃ e, interpretCommand v line = .error e) :
    ∀ (cmds : List String), line ∈ cmds → ∀ logits : List Logit,
      ∃ e, List.foldlM (fun acc c => interpretCommand acc c) logits cmds = .error e
  | [], h, _ => absurd h (List.not_mem_nil _)
  | c :: cs, h, logits => by
    rw [List.foldlM_cons]
    cases hc : interpretCommand logits c with
    | error e => exact ⟨e, rfl⟩
    | ok v =>
      rcases List.mem_cons.mp h with rfl | hmem
      · rcases h2 logits with ⟨e, he⟩
        rw [he] at hc
        cases hc
      · rcases foldl_mem_error line h2 cs hmem v with ⟨e, he⟩
        exact ⟨e, he⟩

/-- The interpreter loop keeps the length. -/
theorem interpret_loop_length :
    ∀ (cmds : List String) (l r : List Logit),
      List.foldlM (fun acc c => interpretCommand acc c) l cmds = .ok r → r.length = l.length
  | [], l, r => by
    intro h
    have h2 : (Except.ok l : Except Err (List Logit)) = .ok r := h
    cases h2
    rfl
  | c :: cs, l, r => by
    intro h
    rw [List.foldlM_cons] at h
    cases hc : interpretCommand l c with
    | error e => rw [hc] at h; cases h
    | ok v =>
      rw [hc] at h
      have h2 : List.foldlM (fun acc c => interpretCommand acc c) v cs = .ok r := h
      exact (interpret_loop_length cs v r h2).trans (interpretCommand_length hc)

/-- C1: for every vector and every comparator in the four recognized
forms, thresholding returns the same-length vector in which exactly the
positions whose value satisfies the comparator against the threshold
are overwritten with the bottom sentinel and every other position keeps
its value; in particular the strictly-less comparator keeps exactly the
values that are at least the threshold (min-p style retention). -/
theorem threshold_semantics_C1 (logits : List Logit) (p : ℚ) :
    threshold_logits logits "<" p = .ok (logits.map fun v => if v < (p : Logit) then ⊥ else v) ∧
    threshold_logits logits ">" p = .ok (logits.map fun v => if v > (p : Logit) then ⊥ else v) ∧
    threshold_logits logits "<=" p = .ok (logits.map fun v => if v ≤ (p : Logit) then ⊥ else v) ∧
    threshold_logits logits ">=" p = .ok (logits.map fun v => if v ≥ (p : Logit) then ⊥ else v) ∧
    threshold_logits logits "<" p = .ok (logits.map fun v => if (p : Logit) ≤ v then v else ⊥) := by
  refine ⟨rfl, rfl, rfl, rfl, ?_⟩
  have hfun : (fun v : Logit => if v < (p : Logit) then ⊥ else v) =
      fun v : Logit => if (p : Logit) ≤ v then v else ⊥ := by
    funext v
    by_cases hv : v < (p : Logit)
    · rw [if_pos hv, if_neg (not_le.mpr hv)]
    · rw [if_neg hv, if_pos (not_lt.mp hv)]
  show threshold_logits logits "<" p = _
  have h1 : threshold_logits logits "<" p =
      .ok (logits.map fun v => if v < (p : Logit) then ⊥ else v) := rfl
  rw [h1, hfun]

/-- C4: whenever interpretation of a program over a vector succeeds,
the output vector has exactly the length of the input vector. -/
theorem length_invariant_C4 (logits : List Logit) (lines : List String) (r : List Logit)
    (h : interpret_dsl logits lines = .ok r) : r.length = logits.length :=
  interpret_loop_length _ _ _ h

/-- Witness for C4 at a concrete program and vector. -/
theorem length_invariant_C4_witness :
    ([⊥, ((2 : ℚ) : Logit)] : List Logit).length = ([((2 : ℚ) : Logit), ⊥] : List Logit).length :=
  length_invariant_C4 [((2 : ℚ) : Logit), ⊥] ["sort +"] [⊥, ((2 : ℚ) : Logit)] rfl

/-- C5: descending sort is a largest-to-smallest permutation of the
input values, ascending sort a smallest-to-largest one; a bare sort
command behaves exactly as descending sort, and any order token other
than plus or minus fails with the invalid-order error. -/
theorem sort_semantics_C5 (logits : List Logit) (s : String)
    (hp : s ≠ "+") (hm : s ≠ "-") :
    (∃ r, sort_logits logits "-" = .ok r ∧ r.Perm logits ∧ List.Sorted (· ≥ ·) r) ∧
    (∃ r, sort_logits logits "+" = .ok r ∧ r.Perm logits ∧ List.Sorted (· ≤ ·) r) ∧
    interpretCommand logits "sort" = sort_logits logits "-" ∧
    sort_logits logits s = .error (.invalidOrder s) := by
  refine ⟨⟨_, rfl, sortDesc_perm logits, sortDesc_sorted logits⟩,
    ⟨_, rfl, List.perm_insertionSort _ logits, List.sorted_insertionSort _ logits⟩, rfl, ?_⟩
  unfold sort_logits
  rw [if_neg hm, if_neg hp]

/-- Witness for C5 at a concrete invalid order token. -/
theorem sort_semantics_C5_witness :
    sort_logits [((1 : ℚ) : Logit)] "x" = .error (.invalidOrder "x") :=
  (sort_semantics_C5 [((1 : ℚ) : Logit)] "x" (by decide) (by decide)).2.2.2

/-- C9: tokens on a command line beyond those the command consumes are
silently ignored: any line tokenizing to the sort command with its
order and extra tokens behaves as the bare sort command, and likewise
for slice and threshold; in particular the three concrete lines with a
trailing token behave as their two-token and three-token forms. -/
theorem extra_tokens_ignored_C9 (logits : List Logit) :
    (∀ (line : String) (rest : List String), pySplit line = "sort" :: "-" :: rest →
      interpretCommand logits line = sort_logits logits "-") ∧
    (∀ (line : String) (rest : List String), pySplit line = "slice" :: "0:3" :: rest →
      interpretCommand logits line = slice_logits logits (some 0) (some 3)) ∧
    (∀ (line : String) (rest : List String), pySplit line = "threshold" :: "<" :: "1" :: rest →
      interpretCommand logits line = threshold_logits logits "<" 1) ∧
    interpretCommand logits "sort - x" = interpretCommand logits "sort -" ∧
    interpretCommand logits "slice 0:3 x" = interpretCommand logits "slice 0:3" ∧
    interpretCommand logits "threshold < 1 x" = interpretCommand logits "threshold < 1" := by
  refine ⟨?_, ?_, ?_, rfl, rfl, rfl⟩
  all_goals intro line rest h
  all_goals unfold interpretCommand
  all_goals rw [h]
  all_goals rfl

/-- Witness for C9 at a concrete line with an extra token. -/
theorem extra_tokens_ignored_C9_witness :
    interpretCommand [((1 : ℚ) : Logit)] "sort - x" = sort_logits [((1 : ℚ) : Logit)] "-" :=
  (extra_tokens_ignored_C9 [((1 : ℚ) : Logit)]).1 "sort - x" ["x"] rfl

/-- C2: for every vector and every k between 1 and the length,
descending sort followed by slicing the first k positions yields the k
largest values in descending order followed by bottom entries; and the
end-to-end example program over the example vector returns the expected
top-3 result. -/
theorem topk_pipeline_C2 (logits : List Logit) (k : ℕ)
    (hk : 0 < k) (hkN : k ≤ logits.length) :
    (∃ s, sort_logits logits "-" = .ok s ∧ s.Perm logits ∧ List.Sorted (· ≥ ·) s ∧
      slice_logits s none (some (k : Int)) =
        .ok (s.take k ++ List.replicate (logits.length - k) ⊥)) ∧
    interpret_dsl [((0.1 : ℚ) : Logit), ((2.3 : ℚ) : Logit), ((1.1 : ℚ) : Logit),
        ((0.7 : ℚ) : Logit), ((-1 : ℚ) : Logit)] ["sort", "slice :3"] =
      .ok [((2.3 : ℚ) : Logit), ((1.1 : ℚ) : Logit), ((0.7 : ℚ) : Logit), ⊥, ⊥] := by
  constructor
  · refine ⟨(List.insertionSort (· ≤ ·) logits).reverse, rfl, sortDesc_perm logits,
      sortDesc_sorted logits, ?_⟩
    have hlen : (List.insertionSort (· ≤ ·) logits).reverse.length = logits.length :=
      (sortDesc_perm logits).length_eq
    have hred : slice_logits (List.insertionSort (· ≤ ·) logits).reverse none (some (k : Int)) =
        if (0 : Int) < 0 ∨
            (k : Int) > ((List.insertionSort (· ≤ ·) logits).reverse.length : Int) ∨
            (0 : Int) ≥ (k : Int) then
          Except.error
            (.invalidSliceRange 0 (k : Int) (List.insertionSort (· ≤ ·) logits).reverse.length)
        else .ok (maskIdx 0 (k : Int) 0 (List.insertionSort (· ≤ ·) logits).reverse) := rfl
    rw [hred, if_neg (by rw [hlen]; omega), maskIdx_take, hlen]
  · have h1 : (0.1 : ℚ) = mkRat 1 10 := by norm_num [Rat.mkRat_eq_div]
    have h2 : (2.3 : ℚ) = mkRat 23 10 := by norm_num [Rat.mkRat_eq_div]
    have h3 : (1.1 : ℚ) = mkRat 11 10 := by norm_num [Rat.mkRat_eq_div]
    have h4 : (0.7 : ℚ) = mkRat 7 10 := by norm_num [Rat.mkRat_eq_div]
    rw [h1, h2, h3, h4]
    rfl

/-- Witness for C2: the general part applied at a concrete vector and
k, extracting the closed end-to-end example. -/
theorem topk_pipeline_C2_witness :
    interpret_dsl [((0.1 : ℚ) : Logit), ((2.3 : ℚ) : Logit), ((1.1 : ℚ) : Logit),
        ((0.7 : ℚ) : Logit), ((-1 : ℚ) : Logit)] ["sort", "slice :3"] =
      .ok [((2.3 : ℚ) : Logit), ((1.1 : ℚ) : Logit), ((0.7 : ℚ) : Logit), ⊥, ⊥] :=
  (topk_pipeline_C2 [((3 : ℚ) : Logit)] 1 (by decide) (by decide)).2

/-- C3: range masking fails with the range error exactly when, after
applying the defaults, the start is negative, the end exceeds the
length, or the start is not strictly below the end (so an empty or
inverted range is an error); only the range error can be produced; and
on valid bounds it returns the same-length vector keeping exactly the
positions in the half-open range and overwriting the rest with the
bottom sentinel. -/
theorem slice_validation_C3 (logits : List Logit) (n? m? : Option Int) :
    ((∃ e, slice_logits logits n? m? = .error e) ↔
      (n?.getD 0 < 0 ∨ m?.getD (logits.length : Int) > (logits.length : Int) ∨
        n?.getD 0 ≥ m?.getD (logits.length : Int))) ∧
    (∀ e, slice_logits logits n? m? = .error e →
      e = .invalidSliceRange (n?.getD 0) (m?.getD (logits.length : Int)) logits.length) ∧
    (¬ (n?.getD 0 < 0 ∨ m?.getD (logits.length : Int) > (logits.length : Int) ∨
        n?.getD 0 ≥ m?.getD (logits.length : Int)) →
      ∃ r, slice_logits logits n? m? = .ok r ∧ r.length = logits.length ∧
        ∀ (i : ℕ) (h : i < logits.length) (h2 : i < r.length),
          r.get ⟨i, h2⟩ =
            if n?.getD 0 ≤ (i : Int) ∧ (i : Int) < m?.getD (logits.length : Int)
            then logits.get ⟨i, h⟩ else ⊥) := by
  have hred : slice_logits logits n? m? =
      if n?.getD 0 < 0 ∨ m?.getD (logits.length : Int) > (logits.length : Int) ∨
          n?.getD 0 ≥ m?.getD (logits.length : Int) then
        Except.error
          (.invalidSliceRange (n?.getD 0) (m?.getD (logits.length : Int)) logits.length)
      else .ok (maskIdx (n?.getD 0) (m?.getD (logits.length : Int)) 0 logits) := rfl
  by_cases hc : n?.getD 0 < 0 ∨ m?.getD (logits.length : Int) > (logits.length : Int) ∨
      n?.getD 0 ≥ m?.getD (logits.length : Int)
  · refine ⟨⟨fun _ => hc, fun _ => ⟨_, by rw [hred, if_pos hc]⟩⟩, ?_, fun hnc => absurd hc hnc⟩
    intro e he
    rw [hred, if_pos hc] at he
    exact (Except.error.inj he).symm
  · refine ⟨⟨?_, fun h => absurd h hc⟩, ?_, ?_⟩
    · rintro ⟨e, he⟩
      rw [hred, if_neg hc] at he
      cases he
    · intro e he
      rw [hred, if_neg hc] at he
      cases he
    · intro _
      refine ⟨maskIdx (n?.getD 0) (m?.getD (logits.length : Int)) 0 logits,
        by rw [hred, if_neg hc], maskIdx_length _ _ _ _, ?_⟩
      intro i h h2
      rw [maskIdx_get (n?.getD 0) (m?.getD (logits.length : Int)) 0 logits i h h2]
      simp only [zero_add]

/-- Witness for C3: an empty range on a concrete vector is rejected. -/
theorem slice_validation_C3_witness :
    ∃ e, slice_logits [((5 : ℚ) : Logit)] (some 0) (some 0) = .error e :=
  (slice_validation_C3 [((5 : ℚ) : Logit)] (some 0) (some 0)).1.mpr (by decide)

/-- C6 counterexample: the parser performs no validation at all (it
returns the full trimmed line list of the program, malformed lines
included), and on the program whose first line is a slice with bounds
beyond the vector and whose second line is an unknown command, a
five-entry vector makes interpretation fail with the slice range error
of the first line, not with any parse error for the malformed second
line: the malformed line is not detected before vector transformations
begin. -/
theorem fail_fast_counterexample_C6 :
    parse_dsl ["slice 0:10", "foo"] = ["slice 0:10", "foo"] ∧
    interpretCommand (List.replicate 5 ((0 : ℚ) : Logit)) "foo" =
      .error (.unknownCommand "foo") ∧
    interpret_dsl (List.replicate 5 ((0 : ℚ) : Logit)) ["slice 0:10", "foo"] =
      .error (.invalidSliceRange 0 10 5) ∧
    Err.invalidSliceRange 0 10 5 ≠ Err.unknownCommand "foo" :=
  ⟨rfl, rfl, rfl, by decide⟩

/-- C6 amended: a program containing a line that fails for every vector
(as every malformed line does) never yields an output vector — the
whole interpretation fails with some error, though the error is raised
only when execution reaches that line, so an earlier line's own error
may surface instead. -/
theorem malformed_line_no_output_C6 (logits : List Logit) (lines : List String) (line : String)
    (h1 : line ∈ parse_dsl lines)
    (h2 : ∀ v : List Logit, ∃ e, interpretCommand v line = .error e) :
    ∃ e, interpret_dsl logits lines = .error e :=
  foldl_mem_error line h2 (parse_dsl lines) h1 logits

/-- Witness for the amended C6 at a concrete program. -/
theorem malformed_line_no_output_C6_witness :
    ∃ e, interpret_dsl [((5 : ℚ) : Logit)] ["foo"] = .error e :=
  malformed_line_no_output_C6 [((5 : ℚ) : Logit)] ["foo"] "foo" (by decide)
    (fun _ => ⟨.unknownCommand "foo", rfl⟩)

/-- C7: after descending sort every bottom (negative infinity) entry
sits after every non-bottom entry, after ascending sort before it; and
descending then ascending sort is not the identity on a concrete
masked vector. -/
theorem neg_inf_sort_order_C7 (logits r₁ r₂ : List Logit)
    (hd : sort_logits logits "-" = .ok r₁) (ha : sort_logits logits "+" = .ok r₂) :
    (∀ i j : Fin r₁.length, r₁.get i = ⊥ → r₁.get j ≠ ⊥ → (j : ℕ) < (i : ℕ)) ∧
    (∀ i j : Fin r₂.length, r₂.get i = ⊥ → r₂.get j ≠ ⊥ → (i : ℕ) < (j : ℕ)) ∧
    interpret_dsl [((0 : ℚ) : Logit), ⊥] ["sort -", "sort +"] = .ok [⊥, ((0 : ℚ) : Logit)] ∧
    interpret_dsl [((0 : ℚ) : Logit), ⊥] ["sort -", "sort +"] ≠
      .ok [((0 : ℚ) : Logit), ⊥] := by
  have hd2 : Except.ok ((List.insertionSort (· ≤ ·) logits).reverse) = Except.ok r₁ := hd
  have ha2 : Except.ok (List.insertionSort (· ≤ ·) logits) = Except.ok r₂ := ha
  cases hd2
  cases ha2
  refine ⟨?_, ?_, rfl, ?_⟩
  · intro i j hbi hbj
    have hs := sortDesc_sorted logits
    rcases Nat.lt_trichotomy (i : ℕ) (j : ℕ) with hij | hij | hij
    · exfalso
      have hrel := hs.rel_get_of_lt (show i < j from hij)
      rw [hbi] at hrel
      exact hbj (le_bot_iff.mp hrel)
    · exact absurd (Fin.ext hij ▸ hbi) hbj
    · exact hij
  · intro i j hbi hbj
    have hs := List.sorted_insertionSort (· ≤ ·) logits
    rcases Nat.lt_trichotomy (i : ℕ) (j : ℕ) with hij | hij | hij
    · exact hij
    · exact absurd (Fin.ext hij ▸ hbi) hbj
    · exfalso
      have hrel := hs.rel_get_of_lt (show j < i from hij)
      rw [hbi] at hrel
      exact hbj (le_bot_iff.mp hrel)
  · intro h
    have h2 : (Except.ok [⊥, ((0 : ℚ) : Logit)] : Except Err (List Logit)) =
        .ok [((0 : ℚ) : Logit), ⊥] := by
      calc (Except.ok [⊥, ((0 : ℚ) : Logit)] : Except Err (List Logit))
          = interpret_dsl [((0 : ℚ) : Logit), ⊥] ["sort -", "sort +"] := rfl
        _ = .ok [((0 : ℚ) : Logit), ⊥] := h
    injection h2 with h3
    simp at h3

/-- Witness for C7 at a concrete masked vector. -/
theorem neg_inf_sort_order_C7_witness :
    interpret_dsl [((0 : ℚ) : Logit), ⊥] ["sort -", "sort +"] = .ok [⊥, ((0 : ℚ) : Logit)] :=
  (neg_inf_sort_order_C7 [((0 : ℚ) : Logit), ⊥] [((0 : ℚ) : Logit), ⊥]
    [⊥, ((0 : ℚ) : Logit)] rfl rfl).2.2.1

/-- C8: a program with no non-blank lines returns the input vector
unchanged, and inserting or removing a blank line anywhere in a
program never changes the result. -/
theorem blank_lines_C8 (logits : List Logit) :
    (∀ lines : List String, (∀ l ∈ lines, pyStrip l = "") →
      interpret_dsl logits lines = .ok logits) ∧
    (∀ (pre post : List String) (blank : String), pyStrip blank = "" →
      interpret_dsl logits (pre ++ blank :: post) = interpret_dsl logits (pre ++ post)) := by
  constructor
  · intro lines hall
    have hparse : parse_dsl lines = [] := by
      simp only [parse_dsl, List.filter_eq_nil_iff]
      intro a ha
      rcases List.mem_map.mp ha with ⟨l, hl, rfl⟩
      simp [hall l hl]
    unfold interpret_dsl
    rw [hparse]
    rfl
  · intro pre post blank hb
    unfold interpret_dsl
    have hparse : parse_dsl (pre ++ blank :: post) = parse_dsl (pre ++ post) := by
      simp [parse_dsl, List.filter_append, List.filter_cons, hb]
    rw [hparse]

/-- Witness for C8 at a concrete whitespace-only program. -/
theorem blank_lines_C8_witness :
    interpret_dsl [((1 : ℚ) : Logit)] ["", "  "] = .ok [((1 : ℚ) : Logit)] :=
  (blank_lines_C8 [((1 : ℚ) : Logit)]).1 ["", "  "] (by decide)

/-- C10: each primitive that succeeds only shrinks the multiset of
non-bottom values: the finite values of the output are a sub-multiset
of those of the input, so an excluded entry is never replaced by a
finite value. -/
theorem mask_monotone_C10 (logits r : List Logit) (o op : String)
    (n? m? : Option Int) (p : ℚ) :
    (sort_logits logits o = .ok r → finiteVals r ≤ finiteVals logits) ∧
    (slice_logits logits n? m? = .ok r → finiteVals r ≤ finiteVals logits) ∧
    (threshold_logits logits op p = .ok r → finiteVals r ≤ finiteVals logits) := by
  refine ⟨?_, ?_, ?_⟩
  · intro h
    unfold sort_logits at h
    split at h
    · cases h
      exact le_of_eq (finiteVals_perm (sortDesc_perm logits))
    · split at h
      · cases h
        exact le_of_eq (finiteVals_perm (List.perm_insertionSort _ logits))
      · cases h
  · intro h
    simp only [slice_logits] at h
    split at h
    · cases h
    · cases h
      exact finiteVals_maskIdx_le _ _ _ logits
  · intro h
    unfold threshold_logits at h
    repeat' split at h
    all_goals cases h
    all_goals refine finiteVals_map_le _ ?_ logits
    all_goals intro v
    all_goals dsimp only
    all_goals split
    all_goals first
      | exact Or.inr rfl
      | exact Or.inl rfl

/-- Witness for C10 at a concrete thresholding step. -/
theorem mask_monotone_C10_witness :
    finiteVals [⊥] ≤ finiteVals [((0 : ℚ) : Logit)] :=
  (mask_monotone_C10 [((0 : ℚ) : Logit)] [⊥] "-" "<" none none 1).2.2 rfl

end SamplingDSL
